import Mathlib

/-!
# Verification of the learning-chat backend (hanzong05/aimddlwr)

Shallow embedding of the repository's data model and the handlers touched by
the spec's testable properties: the feedback loop (api/learning/feedback.js),
the response selector (the chat handler's generateAIResponse and its
fallback helpers), the training-job state machine (api/ai/train.js), and the
model activation/archival handlers.

Numeric values (confidence scores, progress percentages, metrics) are
embedded as rationals: the JavaScript literals involved (0.1, 0.15, 0.05,
0.4, 0.95, ...) are all exactly representable, and the handlers only add,
subtract, multiply, divide, min and max them.  Strings are embedded as
Lean `String`s with explicit ASCII helpers mirroring the JavaScript string
methods used by the code (`toLowerCase`, `trim`, `includes`, `startsWith`,
and the handful of anchored regular expressions in the fallback helpers).
-/

namespace LearningChat

/-! ## Data model

`Pattern` mirrors a `learning_patterns` row (the columns the handlers read
or write); `FeedbackEvent` mirrors the body of a POST to
api/learning/feedback.js (`feedback_type`, `feedback_score`,
`corrected_response`).  A missing JSON field is `none`. -/

structure Pattern where
  id : ℕ
  userId : ℕ
  inputPattern : String
  responsePattern : String
  category : String
  confidence : ℚ
  useCount : ℕ
  deriving Repr, DecidableEq

structure FeedbackEvent where
  feedbackType : String
  feedbackScore : Option ℚ
  correctedResponse : Option String
  deriving Repr, DecidableEq

/-- JavaScript `feedback_score >= 4`: comparing `undefined` with a number
yields `false`, so a missing score never passes the check. -/
def scoreAtLeastFour : Option ℚ → Bool
  | some s => decide (4 ≤ s)
  | none => false

/-- JavaScript truthiness of an optional string: `undefined`, `null` and
`""` are falsy, every non-empty string is truthy. -/
def truthyStr : Option String → Bool
  | some s => !s.isEmpty
  | none => false

/-- The pattern mutation performed by api/learning/feedback.js lines 60-88:
`positive` with score >= 4 applies `LEAST(1.0, confidence + 0.1)`,
`negative` applies `GREATEST(0.1, confidence - 0.15)`, `correction` with a
truthy `corrected_response` replaces `response_pattern` and applies
`LEAST(1.0, confidence + 0.05)`; any other combination leaves the row
untouched. -/
def applyFeedback (p : Pattern) (e : FeedbackEvent) : Pattern :=
  if e.feedbackType = "positive" && scoreAtLeastFour e.feedbackScore then
    { p with confidence := min 1 (p.confidence + 1/10) }
  else if e.feedbackType = "negative" then
    { p with confidence := max (1/10) (p.confidence - 15/100) }
  else if e.feedbackType = "correction" && truthyStr e.correctedResponse then
    { p with responsePattern := e.correctedResponse.getD "",
             confidence := min 1 (p.confidence + 5/100) }
  else p

/-- The handler's persistent state for one pattern: the append-only
`pattern_feedback` log and the mutable `learning_patterns` row.  The
handler inserts the feedback row first (line 44) and then mutates the
pattern (lines 60-88). -/
structure FeedbackState where
  pattern : Pattern
  events : List FeedbackEvent
  deriving Repr, DecidableEq

def handleFeedback (s : FeedbackState) (e : FeedbackEvent) : FeedbackState :=
  { pattern := applyFeedback s.pattern e, events := s.events ++ [e] }

/-- One feedback application keeps the confidence inside [0.1, 1]. -/
theorem applyFeedback_confidence_bounds (p : Pattern) (e : FeedbackEvent)
    (h1 : 1/10 ≤ p.confidence) (h2 : p.confidence ≤ 1) :
    1/10 ≤ (applyFeedback p e).confidence ∧ (applyFeedback p e).confidence ≤ 1 := by
  unfold applyFeedback
  split_ifs
  · exact ⟨le_min (by norm_num) (by linarith), min_le_left _ _⟩
  · exact ⟨le_max_left _ _, max_le (by norm_num) (by linarith)⟩
  · exact ⟨le_min (by norm_num) (by linarith), min_le_left _ _⟩
  · exact ⟨h1, h2⟩

/-- C1 -- Confidence clamp invariant: starting from a pattern whose
confidence lies in [0.1, 1.0], any sequence of feedback events (any mix of
positive, negative and correction events, in any order) applied by the
feedback handler leaves the confidence in [0.1, 1.0]. -/
theorem c1_confidence_clamp (p : Pattern) (es : List FeedbackEvent)
    (h1 : 1/10 ≤ p.confidence) (h2 : p.confidence ≤ 1) :
    1/10 ≤ (es.foldl applyFeedback p).confidence ∧
      (es.foldl applyFeedback p).confidence ≤ 1 := by
  induction es generalizing p with
  | nil => exact ⟨h1, h2⟩
  | cons e es ih =>
      have hb := applyFeedback_confidence_bounds p e h1 h2
      simpa [List.foldl] using ih (applyFeedback p e) hb.1 hb.2

theorem c1_confidence_clamp_witness :
    1/10 ≤ (([⟨"negative", none, none⟩, ⟨"negative", none, none⟩,
              ⟨"positive", some 5, none⟩, ⟨"negative", none, none⟩] :
        List FeedbackEvent).foldl applyFeedback
        ⟨1, 7, "hi", "hello", "greeting", 1/5, 0⟩).confidence ∧
      (([⟨"negative", none, none⟩, ⟨"negative", none, none⟩,
              ⟨"positive", some 5, none⟩, ⟨"negative", none, none⟩] :
        List FeedbackEvent).foldl applyFeedback
        ⟨1, 7, "hi", "hello", "greeting", 1/5, 0⟩).confidence ≤ 1 :=
  c1_confidence_clamp ⟨1, 7, "hi", "hello", "greeting", 1/5, 0⟩ _
    (by norm_num) (by norm_num)

/-- C2 -- Feedback update function: positive feedback with score >= 4 sets
confidence to min(1, c + 0.1); negative feedback sets it to
max(0.1, c - 0.15) (so c = 0.2 yields exactly 0.1); a correction with a
non-empty replacement overwrites the response pattern and sets confidence
to min(1, c + 0.05); every other combination appends the feedback event
and leaves the pattern completely unchanged. -/
theorem c2_feedback_update (p : Pattern) (e : FeedbackEvent) :
    (∀ s, e.feedbackType = "positive" → e.feedbackScore = some s → 4 ≤ s →
      applyFeedback p e = { p with confidence := min 1 (p.confidence + 1/10) }) ∧
    (e.feedbackType = "negative" →
      applyFeedback p e = { p with confidence := max (1/10) (p.confidence - 15/100) }) ∧
    (∀ c, e.feedbackType = "correction" → e.correctedResponse = some c → c ≠ "" →
      applyFeedback p e = { p with responsePattern := c,
                                   confidence := min 1 (p.confidence + 5/100) }) ∧
    (¬ (e.feedbackType = "positive" ∧ scoreAtLeastFour e.feedbackScore = true) →
     e.feedbackType ≠ "negative" →
     ¬ (e.feedbackType = "correction" ∧ truthyStr e.correctedResponse = true) →
      applyFeedback p e = p) ∧
    (∀ st : FeedbackState, (handleFeedback st e).events = st.events ++ [e]) := by
  refine ⟨?_, ?_, ?_, ?_, fun st => rfl⟩
  · intro s hty hsc hs
    simp [applyFeedback, hty, hsc, scoreAtLeastFour, hs]
  · intro hty
    simp [applyFeedback, hty]
  · intro c hty hcr hne
    have hce : c.isEmpty = false := by
      cases hb : c.isEmpty
      · rfl
      · exact absurd ((String.isEmpty_iff c).mp hb) hne
    simp [applyFeedback, hty, hcr, truthyStr, hce]
  · intro h1 h2 h3
    unfold applyFeedback
    split_ifs with g1 g2
    · simp only [Bool.and_eq_true, decide_eq_true_eq] at g1
      exact absurd g1 h1
    · simp only [Bool.and_eq_true, decide_eq_true_eq] at g2
      exact absurd g2 h3
    · rfl

theorem c2_feedback_update_witness :
    applyFeedback ⟨1, 7, "q", "r", "general", 1/5, 0⟩ ⟨"negative", none, none⟩ =
      ⟨1, 7, "q", "r", "general", 1/10, 0⟩ := by
  have h := (c2_feedback_update ⟨1, 7, "q", "r", "general", 1/5, 0⟩
      ⟨"negative", none, none⟩).2.1 rfl
  rw [h]
  congr 1
  norm_num

/-! ## ASCII string helpers

These mirror the JavaScript string operations used by the chat handler:
`toLowerCase`, `trim`, `includes`, `startsWith`, and the anchored regular
expressions of the fallback helpers.  Messages in this product are ASCII,
so `Char.toLower` coincides with the JavaScript lowering on the inputs of
interest. -/

def isWsChar (c : Char) : Bool := c = ' ' || c = '\t' || c = '\n' || c = '\r'

/-- JavaScript regex `\w`: ASCII letters, digits and underscore. -/
def isWordChar (c : Char) : Bool :=
  ('a' ≤ c && c ≤ 'z') || ('A' ≤ c && c ≤ 'Z') || ('0' ≤ c && c ≤ '9') || c = '_'

def strLower (s : String) : String := ⟨s.toList.map Char.toLower⟩

def strTrim (s : String) : String :=
  ⟨((s.toList.dropWhile isWsChar).reverse.dropWhile isWsChar).reverse⟩

/-- `startsWithL needle hay` holds when `needle` is a prefix of `hay`. -/
def startsWithL : List Char → List Char → Bool
  | [], _ => true
  | _ :: _, [] => false
  | a :: as, b :: bs => a = b && startsWithL as bs

/-- `containsL hay needle` holds when `needle` occurs contiguously in
`hay` (JavaScript `hay.includes(needle)`). -/
def containsL : List Char → List Char → Bool
  | [], needle => needle.isEmpty
  | c :: rest, needle => startsWithL needle (c :: rest) || containsL rest needle

def strContains (hay needle : String) : Bool := containsL hay.toList needle.toList

/-! ## Category classifier and contextual fallback

Embedded from the chat handler's `detectCategory`,
`generateContextualFallback`, `isIntroduction`, `extractName` and
`isCorrection` helpers.  The anchored regular expressions are translated
keyword-by-keyword; alternation is tried in source order, exactly as the
JavaScript engine does for these patterns. -/

/-- `detectCategory` from the chat handler: programming keywords are
checked first, then greetings, then help words, else `general`. -/
def detectCategory (message : String) : String :=
  let msg := strLower message
  if strContains msg "code" || strContains msg "programming" ||
     strContains msg "javascript" || strContains msg "react" ||
     strContains msg "python" || strContains msg "function" ||
     strContains msg "variable" || strContains msg "debug" ||
     strContains msg "html" || strContains msg "css" ||
     strContains msg "api" then "programming"
  else if strContains msg "hello" || strContains msg "hi" ||
     strContains msg "hey" || strContains msg "good morning" ||
     strContains msg "good afternoon" || strContains msg "good evening" ||
     startsWithL "sup".toList msg.toList then "greeting"
  else if strContains msg "help" || strContains msg "how" ||
     strContains msg "what" || strContains msg "explain" ||
     strContains msg "tell me" || strContains msg "show me" ||
     strContains msg "can you" || strContains msg "could you" then "help"
  else "general"

/-- One message of the conversation history (`type` is `user` or
`assistant`). -/
structure ChatMsg where
  mtype : String
  content : String
  deriving Repr, DecidableEq

/-- Regex fragment `\s+\w+` at the start of `s`: at least one whitespace
character followed by at least one word character. -/
def wsThenWord (s : List Char) : Bool :=
  match s with
  | [] => false
  | c :: _ => isWsChar c && !((s.dropWhile isWsChar).takeWhile isWordChar).isEmpty

/-- One keyword of an alternation, anchored at the start of `s`, followed
by `\s+\w+` (alternatives tried in order, as the regex engine does). -/
def keyThenWsWord (keys : List String) (s : List Char) : Bool :=
  keys.any fun k => startsWithL k.toList s && wsThenWord (s.drop k.length)

/-- Intro regex 1: `(i'm|im|i am|my name is|call me|this is)\s+\w+`
anchored at the start. -/
def introPatA (s : List Char) : Bool :=
  keyThenWsWord ["i\x27m", "im", "i am", "my name is", "call me", "this is"] s

/-- `,?\s*`: an optional comma, then any whitespace.  The keyword that
follows never starts with a comma or whitespace, so the backtracking
regex is equivalent to this deterministic drop. -/
def dropCommaWs (s : List Char) : List Char :=
  (match s with | ',' :: rest => rest | _ => s).dropWhile isWsChar

/-- Intro regex 2: `(hi|hello|hey),?\s*(i'm|im|i am|my name is)\s+\w+`
anchored at the start. -/
def introPatB (s : List Char) : Bool :=
  ["hi", "hello", "hey"].any fun g =>
    startsWithL g.toList s &&
      keyThenWsWord ["i\x27m", "im", "i am", "my name is"]
        (dropCommaWs (s.drop g.length))

/-- Intro regex 3: `(i'm|im|i am)\s+\w+` anchored at both ends. -/
def introPatC (s : List Char) : Bool :=
  ["i\x27m", "im", "i am"].any fun k =>
    startsWithL k.toList s &&
      (let r := s.drop k.length
       match r with
       | [] => false
       | c :: _ => isWsChar c &&
           (let w := r.dropWhile isWsChar
            !w.isEmpty && w.all isWordChar))

def looksLikeIntro (s : List Char) : Bool := introPatA s || introPatB s || introPatC s

/-- `isIntroduction` from the chat handler: one of the three intro
patterns matches and the conversation has fewer than 6 messages. -/
def isIntroduction (msg : String) (hist : List ChatMsg) : Bool :=
  looksLikeIntro msg.toList && hist.length < 6

/-- At one position, try the name-extraction alternatives in order; on a
keyword hit followed by `\s+`, capture the maximal `\w+` run. -/
def tryKeysAt (keys : List String) (s : List Char) : Option (List Char) :=
  match keys with
  | [] => none
  | k :: ks =>
    if startsWithL k.toList s && wsThenWord (s.drop k.length) then
      some (((s.drop k.length).dropWhile isWsChar).takeWhile isWordChar)
    else tryKeysAt ks s

/-- Leftmost match of the unanchored name regex
`(?:i'm|im|i am|my name is|call me)\s+(\w+)`: scan positions left to
right. -/
def searchKeyName (keys : List String) : List Char → Option (List Char)
  | [] => none
  | c :: rest =>
    match tryKeysAt keys (c :: rest) with
    | some w => some w
    | none => searchKeyName keys rest

/-- JavaScript `w.charAt(0).toUpperCase() + w.slice(1).toLowerCase()`. -/
def capitalizeL (w : List Char) : List Char :=
  match w with
  | [] => []
  | c :: rest => c.toUpper :: rest.map Char.toLower

/-- `extractName` from the chat handler: the keyword pattern first; if it
yields no capture of length > 1, fall back to the whole-string word
pattern `^(\w+)$` with the same length requirement. -/
def extractName (msg : String) : Option String :=
  let s := msg.toList
  let p2 : Option String :=
    if !s.isEmpty && s.all isWordChar && s.length > 1
    then some ⟨capitalizeL s⟩ else none
  match searchKeyName ["i\x27m", "im", "i am", "my name is", "call me"] s with
  | some w => if w.length > 1 then some ⟨capitalizeL w⟩ else p2
  | none => p2

/-- Correction regex `^no,?\s+`. -/
def corrP1 (s : List Char) : Bool :=
  startsWithL "no".toList s &&
    (let r := s.drop 2
     (match r with | c :: _ => isWsChar c | [] => false) ||
     (match r with | ',' :: c :: _ => isWsChar c | _ => false))

/-- Correction regex `^that's (not|wrong)`. -/
def corrP2 (s : List Char) : Bool :=
  startsWithL "that\x27s not".toList s || startsWithL "that\x27s wrong".toList s

/-- Correction regex `^(actually|no)\s+`. -/
def corrP3 (s : List Char) : Bool :=
  ["actually", "no"].any fun k =>
    startsWithL k.toList s &&
      (match s.drop k.length with | c :: _ => isWsChar c | [] => false)

/-- Correction regex `^that'?s my`. -/
def corrP4 (s : List Char) : Bool :=
  startsWithL "thats my".toList s || startsWithL "that\x27s my".toList s

/-- `isCorrection` from the chat handler: one of the four correction
patterns matches and the last history message came from the assistant. -/
def isCorrection (msg : String) (hist : List ChatMsg) : Bool :=
  (corrP1 msg.toList || corrP2 msg.toList || corrP3 msg.toList || corrP4 msg.toList) &&
    (match hist.getLast? with
     | some m => m.mtype = "assistant"
     | none => false)

structure FallbackResp where
  content : String
  confidence : ℚ
  category : String
  deriving Repr, DecidableEq

/-- `generateContextualFallback` from the chat handler: introduction and
correction checks first, then the per-category switch. -/
def generateContextualFallback (message : String) (hist : List ChatMsg) : FallbackResp :=
  let msg := strTrim (strLower message)
  if isIntroduction msg hist then
    match extractName msg with
    | some name =>
        { content := "Nice to meet you, " ++ name ++
            "! I\x27m your AI assistant. How can I help you today?",
          confidence := 7/10, category := "introduction" }
    | none =>
        { content := "Nice to meet you! I\x27m your AI assistant. What\x27s your name, and how can I help you today?",
          confidence := 3/5, category := "introduction" }
  else if isCorrection msg hist then
    { content := "I understand, thank you for clarifying! I\x27ll remember that. Is there anything else I can help you with?",
      confidence := 3/5, category := "clarification" }
  else
    match detectCategory msg with
    | "greeting" =>
        { content := "Hello! I\x27m your AI assistant. How can I help you today?",
          confidence := 7/10, category := "greeting" }
    | "programming" =>
        { content := "I\x27d be happy to help you with programming! Could you tell me more specifically what you\x27re working on or what you\x27d like to know?",
          confidence := 3/5, category := "programming" }
    | "help" =>
        { content := "I\x27m here to help! Could you give me more details about what you need assistance with?",
          confidence := 3/5, category := "help" }
    | _ =>
        { content := "I\x27m still learning about many topics. Could you tell me more about what you\x27re looking for? I\x27d love to help however I can!",
          confidence := 2/5, category := "general" }

/-- `detectCategory` only ever returns one of the four category names. -/
theorem detectCategory_mem (m : String) :
    detectCategory m = "programming" ∨ detectCategory m = "greeting" ∨
      detectCategory m = "help" ∨ detectCategory m = "general" := by
  simp only [detectCategory]
  split_ifs <;> simp

/-- The fixed template returned by the category switch of
`generateContextualFallback`, per category. -/
def fallbackTemplate : String → String
  | "greeting" => "Hello! I\x27m your AI assistant. How can I help you today?"
  | "programming" => "I\x27d be happy to help you with programming! Could you tell me more specifically what you\x27re working on or what you\x27d like to know?"
  | "help" => "I\x27m here to help! Could you give me more details about what you need assistance with?"
  | _ => "I\x27m still learning about many topics. Could you tell me more about what you\x27re looking for? I\x27d love to help however I can!"

/-- The confidence returned by the category switch of
`generateContextualFallback`, per category. -/
def fallbackConfidence : String → ℚ
  | "greeting" => 7/10
  | "programming" => 3/5
  | "help" => 3/5
  | _ => 2/5

/-- C4 counterexample -- the claim says every message reaching the
category fallback gets confidence 0.4; but `"hello there"` reaches the
category switch (it is neither an introduction nor a correction), is
classified `greeting`, and gets confidence 0.7, not 0.4. -/
theorem c4_counterexample :
    isIntroduction (strTrim (strLower "hello there")) [] = false ∧
    isCorrection (strTrim (strLower "hello there")) [] = false ∧
    detectCategory (strTrim (strLower "hello there")) = "greeting" ∧
    (generateContextualFallback "hello there" []).confidence = 7/10 ∧
    (7 : ℚ)/10 ≠ 2/5 :=
  ⟨by decide, by decide, by decide, rfl, by norm_num⟩

/-- C4 (amended) -- for every message that reaches the category switch of
the fallback (neither an introduction nor a correction), the response is
the fixed template determined by the detected category, and the
confidence is determined by the category: 0.7 for greeting, 0.6 for
programming and help, and 0.4 exactly for general. -/
theorem c4_category_fallback (message : String) (hist : List ChatMsg)
    (hni : isIntroduction (strTrim (strLower message)) hist = false)
    (hnc : isCorrection (strTrim (strLower message)) hist = false) :
    generateContextualFallback message hist =
      { content := fallbackTemplate (detectCategory (strTrim (strLower message))),
        confidence := fallbackConfidence (detectCategory (strTrim (strLower message))),
        category := detectCategory (strTrim (strLower message)) } ∧
    ((generateContextualFallback message hist).confidence = 2/5 ↔
      detectCategory (strTrim (strLower message)) = "general") := by
  have hmem := detectCategory_mem (strTrim (strLower message))
  unfold generateContextualFallback
  simp only [hni, hnc, Bool.false_eq_true, if_false]
  rcases hmem with h | h | h | h <;> rw [h]
  · exact ⟨rfl, iff_of_false (by norm_num) (by decide)⟩
  · exact ⟨rfl, iff_of_false (by norm_num) (by decide)⟩
  · exact ⟨rfl, iff_of_false (by norm_num) (by decide)⟩
  · exact ⟨rfl, iff_of_true rfl rfl⟩

theorem c4_category_fallback_witness :
    generateContextualFallback "hello there" [] =
      { content := fallbackTemplate (detectCategory (strTrim (strLower "hello there"))),
        confidence := fallbackConfidence (detectCategory (strTrim (strLower "hello there"))),
        category := detectCategory (strTrim (strLower "hello there")) } ∧
    ((generateContextualFallback "hello there" []).confidence = 2/5 ↔
      detectCategory (strTrim (strLower "hello there")) = "general") :=
  c4_category_fallback "hello there" [] (by decide) (by decide)

/-- C5 -- Fallback classifier determinism: `detectCategory` is a pure
function of the message text (determinism is inherent to the embedding),
and it sends "hello there" to greeting, "how do I debug this react
function" to programming, and "what is agile" to help (via "what"). -/
theorem c5_fallback_determinism :
    detectCategory "hello there" = "greeting" ∧
    detectCategory "how do I debug this react function" = "programming" ∧
    detectCategory "what is agile" = "help" :=
  ⟨by decide, by decide, by decide⟩

/-! ## Response selector (generateAIResponse)

Embedded from the chat handler's `generateAIResponse`: step 1 queries the
pattern store for rows of this user whose `input_pattern` contains the
lowercased message (`ilike '%msg%'`), ordered by confidence descending
with `limit(1)`; a hit bumps that row's `use_count` and is returned as
`learned_pattern`.  Step 2 (an external chat-completion call) is modelled
by an `Option String` parameter: `some r` plays the role of a configured
key whose call succeeded with text `r`; it is stored as a new pattern with
confidence 0.8.  Step 3 falls back to `generateContextualFallback`. -/

inductive RespSource
  | learnedPattern
  | externalAI
  | fallback
  deriving Repr, DecidableEq

structure AIResponse where
  content : String
  confidence : ℚ
  source : RespSource
  learned : Bool
  category : String
  deriving Repr, DecidableEq

/-- The pattern-store query filter: this user's rows whose
`input_pattern` contains the lowercased message (ILIKE is
case-insensitive, hence both sides lowercased). -/
def patternMatches (userId : ℕ) (message : String) (p : Pattern) : Bool :=
  p.userId = userId &&
    containsL (strLower p.inputPattern).toList (strLower message).toList

/-- One step of `order('confidence', descending).limit(1)`: keep the
earlier row unless the later one is strictly more confident. -/
def bestStep (best q : Pattern) : Pattern :=
  if best.confidence < q.confidence then q else best

/-- `order('confidence', descending).limit(1)` over the matching rows:
the first row of maximal confidence. -/
def pickBest : List Pattern → Option Pattern
  | [] => none
  | p :: ps => some (ps.foldl bestStep p)

/-- Fresh id for a pattern row inserted by the external-model branch. -/
def freshPatternId (store : List Pattern) : ℕ :=
  (store.map Pattern.id).foldl max 0 + 1

def generateAIResponse (store : List Pattern) (userId : ℕ) (message : String)
    (externalModel : Option String) (hist : List ChatMsg) :
    AIResponse × List Pattern :=
  match pickBest (store.filter (patternMatches userId message)) with
  | some pat =>
      ({ content := pat.responsePattern, confidence := pat.confidence,
         source := .learnedPattern, learned := false, category := pat.category },
       store.map fun q =>
         if q.id = pat.id then { q with useCount := q.useCount + 1 } else q)
  | none =>
      match externalModel with
      | some resp =>
          ({ content := resp, confidence := 4/5, source := .externalAI,
             learned := true, category := detectCategory message },
           store ++ [{ id := freshPatternId store, userId := userId,
                       inputPattern := strLower message, responsePattern := resp,
                       category := detectCategory message, confidence := 4/5,
                       useCount := 1 }])
      | none =>
          let fb := generateContextualFallback message hist
          ({ content := fb.content, confidence := fb.confidence,
             source := .fallback, learned := false, category := fb.category },
           store)

/-- The fold behind `pickBest` returns an element of the candidate list. -/
theorem foldlBest_mem (p : Pattern) (ps : List Pattern) :
    ps.foldl bestStep p ∈ p :: ps := by
  induction ps generalizing p with
  | nil => exact List.mem_singleton.mpr rfl
  | cons q ps ih =>
    simp only [List.foldl_cons]
    rcases List.mem_cons.mp (ih (bestStep p q)) with h1 | h1
    · rw [h1]
      unfold bestStep
      split_ifs
      · exact List.mem_cons_of_mem _ (List.mem_cons_self _ _)
      · exact List.mem_cons_self _ _
    · exact List.mem_cons_of_mem _ (List.mem_cons_of_mem _ h1)

/-- The fold behind `pickBest` dominates every candidate's confidence. -/
theorem foldlBest_le (p : Pattern) (ps : List Pattern) :
    ∀ q ∈ p :: ps, q.confidence ≤ (ps.foldl bestStep p).confidence := by
  induction ps generalizing p with
  | nil =>
    intro q hq
    rw [List.mem_singleton.mp hq]
    exact le_rfl
  | cons r ps ih =>
    have hstep : p.confidence ≤ (bestStep p r).confidence ∧
        r.confidence ≤ (bestStep p r).confidence := by
      unfold bestStep
      split_ifs with h
      · exact ⟨le_of_lt h, le_refl _⟩
      · exact ⟨le_refl _, le_of_not_lt h⟩
    intro q hq
    simp only [List.foldl_cons]
    rcases List.mem_cons.mp hq with h1 | h1
    · rw [h1]
      exact le_trans hstep.1 (ih (bestStep p r) _ (List.mem_cons_self _ _))
    · rcases List.mem_cons.mp h1 with h2 | h2
      · rw [h2]
        exact le_trans hstep.2 (ih (bestStep p r) _ (List.mem_cons_self _ _))
      · exact ih (bestStep p r) q (List.mem_cons_of_mem _ h2)

theorem pickBest_spec (l : List Pattern) (p : Pattern) (h : pickBest l = some p) :
    p ∈ l ∧ ∀ q ∈ l, q.confidence ≤ p.confidence := by
  cases l with
  | nil => simp [pickBest] at h
  | cons a as =>
    simp only [pickBest, Option.some.injEq] at h
    exact h ▸ ⟨foldlBest_mem a as, foldlBest_le a as⟩

theorem pickBest_isSome (l : List Pattern) (h : l ≠ []) :
    ∃ p, pickBest l = some p := by
  cases l with
  | nil => exact absurd rfl h
  | cons a as => exact ⟨as.foldl bestStep a, rfl⟩

/-- C3 counterexample -- the claim says a matching pattern is accepted
only when its confidence is at least 0.5; but the selector has no such
threshold: a store holding a single matching pattern of confidence 0.3
is returned as `learned_pattern` (with its use count bumped). -/
theorem c3_counterexample :
    (generateAIResponse [⟨1, 7, "hi there", "yo", "greeting", 3/10, 0⟩]
        7 "hi there" none []).1.source = RespSource.learnedPattern ∧
    (generateAIResponse [⟨1, 7, "hi there", "yo", "greeting", 3/10, 0⟩]
        7 "hi there" none []).1.confidence = 3/10 ∧
    (3 : ℚ)/10 < 1/2 ∧
    (generateAIResponse [⟨1, 7, "hi there", "yo", "greeting", 3/10, 0⟩]
        7 "hi there" none []).2 =
      [⟨1, 7, "hi there", "yo", "greeting", 3/10, 1⟩] :=
  ⟨rfl, rfl, by norm_num, rfl⟩

/-- C3 (amended) -- whenever at least one of the user's stored patterns
matches the message, the selector picks a matching pattern of maximal
confidence and accepts it unconditionally (the code has no 0.5
threshold): it returns `source = learned_pattern` with the pattern's
response text and confidence, and bumps exactly that pattern's use count
by 1. -/
theorem c3_learned_pattern_selection (store : List Pattern) (userId : ℕ)
    (message : String) (ext : Option String) (hist : List ChatMsg)
    (hm : store.filter (patternMatches userId message) ≠ []) :
    ∃ best, pickBest (store.filter (patternMatches userId message)) = some best ∧
      best ∈ store.filter (patternMatches userId message) ∧
      (∀ q ∈ store.filter (patternMatches userId message),
        q.confidence ≤ best.confidence) ∧
      generateAIResponse store userId message ext hist =
        ({ content := best.responsePattern, confidence := best.confidence,
           source := .learnedPattern, learned := false, category := best.category },
         store.map fun q =>
           if q.id = best.id then { q with useCount := q.useCount + 1 } else q) := by
  obtain ⟨best, hb⟩ := pickBest_isSome _ hm
  obtain ⟨hmem, hmax⟩ := pickBest_spec _ _ hb
  refine ⟨best, hb, hmem, hmax, ?_⟩
  unfold generateAIResponse
  rw [hb]

theorem c3_learned_pattern_selection_witness :
    ∃ best,
      pickBest ([⟨1, 7, "hi there friend", "yo", "greeting", 3/10, 0⟩,
                 ⟨2, 7, "say hi there", "hey", "greeting", 9/10, 2⟩].filter
          (patternMatches 7 "hi there")) = some best ∧
      best ∈ [⟨1, 7, "hi there friend", "yo", "greeting", 3/10, 0⟩,
              ⟨2, 7, "say hi there", "hey", "greeting", 9/10, 2⟩].filter
          (patternMatches 7 "hi there") ∧
      (∀ q ∈ [⟨1, 7, "hi there friend", "yo", "greeting", 3/10, 0⟩,
              ⟨2, 7, "say hi there", "hey", "greeting", 9/10, 2⟩].filter
          (patternMatches 7 "hi there"), q.confidence ≤ best.confidence) ∧
      generateAIResponse [⟨1, 7, "hi there friend", "yo", "greeting", 3/10, 0⟩,
          ⟨2, 7, "say hi there", "hey", "greeting", 9/10, 2⟩] 7 "hi there" none [] =
        ({ content := best.responsePattern, confidence := best.confidence,
           source := .learnedPattern, learned := false, category := best.category },
         [⟨1, 7, "hi there friend", "yo", "greeting", 3/10, 0⟩,
          ⟨2, 7, "say hi there", "hey", "greeting", 9/10, 2⟩].map fun q =>
           if q.id = best.id then { q with useCount := q.useCount + 1 } else q) :=
  c3_learned_pattern_selection _ 7 "hi there" none [] (by decide)

/-! ## Training job state machine (api/ai/train.js)

`TrainingJob` mirrors a `training_jobs` row.  `startTraining` embeds the
POST handler: the training-data check runs first (fewer than 5 usable
examples rejects with its own error), then the active-job check, then the
insert of a `pending` job.  The active-job lookup uses `.single()`, which
yields a row only when the filtered result has exactly one row (on zero
or several rows PostgREST reports an error, which the handler ignores,
leaving `existingJob` null). -/

inductive JobStatus
  | pending
  | running
  | completed
  | failed
  deriving Repr, DecidableEq

def nonTerminal : JobStatus → Bool
  | .pending => true
  | .running => true
  | .completed => false
  | .failed => false

structure TrainingJob where
  id : ℕ
  userId : ℕ
  status : JobStatus
  currentEpoch : ℕ
  progressPct : ℚ
  lossValue : ℚ
  accuracyValue : ℚ
  modelId : Option ℕ
  deriving Repr, DecidableEq

inductive TrainStartResult
  | needData (currentCount : ℕ)
  | alreadyInProgress (jobId : ℕ)
  | started (jobId : ℕ)
  deriving Repr, DecidableEq

/-- The JSON `error` field the handler returns for each outcome. -/
def trainStartError : TrainStartResult → Option String
  | .needData _ => some "Need at least 5 quality training examples"
  | .alreadyInProgress _ => some "Training job already in progress"
  | .started _ => none

/-- The user's jobs whose status is in `{pending, running}`. -/
def activeJobs (jobs : List TrainingJob) (u : ℕ) : List TrainingJob :=
  jobs.filter (fun j => j.userId = u && nonTerminal j.status)

/-- The `.single()` lookup of an active job (see section comment). -/
def findActiveJob (jobs : List TrainingJob) (userId : ℕ) : Option TrainingJob :=
  match activeJobs jobs userId with
  | [j] => some j
  | _ => none

/-- The POST branch of api/ai/train.js: `dataCount` is the number of the
user's `training_data` rows with `used_in_training = false` and
`quality_score >= 3.0`; `newId` is the id the insert returns. -/
def startTraining (jobs : List TrainingJob) (userId dataCount newId : ℕ) :
    TrainStartResult × List TrainingJob :=
  if dataCount < 5 then (.needData dataCount, jobs)
  else
    match findActiveJob jobs userId with
    | some j => (.alreadyInProgress j.id, jobs)
    | none =>
        (.started newId,
         jobs ++ [{ id := newId, userId := userId, status := .pending,
                    currentEpoch := 0, progressPct := 0, lossValue := 0,
                    accuracyValue := 0, modelId := none }])

def trainRequestStep (js : List TrainingJob) (r : ℕ × ℕ × ℕ) : List TrainingJob :=
  (startTraining js r.1 r.2.1 r.2.2).2

/-- One create-training request keeps every user's number of
pending/running jobs at most 1. -/
theorem startTraining_preserves_single (jobs : List TrainingJob) (u d n : ℕ)
    (hv : ∀ v, (activeJobs jobs v).length ≤ 1) :
    ∀ v, (activeJobs (startTraining jobs u d n).2 v).length ≤ 1 := by
  intro v
  unfold startTraining
  split_ifs with hd
  · exact hv v
  · cases hfa : findActiveJob jobs u with
    | some j => exact hv v
    | none =>
      simp only
      unfold activeJobs
      rw [List.filter_append]
      by_cases hvu : v = u
      · subst hvu
        have h0 : activeJobs jobs v = [] := by
          cases hl : (activeJobs jobs v).length with
          | zero => exact List.length_eq_zero.mp hl
          | succ k =>
            have h1 : (activeJobs jobs v).length = 1 :=
              le_antisymm (hv v) (by omega)
            obtain ⟨a, ha⟩ := List.length_eq_one.mp h1
            unfold findActiveJob at hfa
            rw [ha] at hfa
            exact absurd hfa (by simp)
        unfold activeJobs at h0
        rw [h0]
        simp [nonTerminal]
      · have hnew : List.filter
            (fun j => j.userId = v && nonTerminal j.status)
            [({ id := n, userId := u, status := .pending, currentEpoch := 0,
                progressPct := 0, lossValue := 0, accuracyValue := 0,
                modelId := none } : TrainingJob)] = [] := by
          simp [Ne.symm hvu]
        rw [hnew, List.append_nil]
        exact hv v

/-- C6 counterexample -- the claim says a create-training request from a
user with a pending/running job is rejected with "Training job already in
progress"; but the handler runs the training-data check first: user 7
here has an active job yet holds only 3 usable examples, and the request
is rejected with "Need at least 5 quality training examples" instead
(still inserting no row). -/
theorem c6_counterexample :
    activeJobs [⟨1, 7, .pending, 0, 0, 0, 0, none⟩] 7 =
      [⟨1, 7, .pending, 0, 0, 0, 0, none⟩] ∧
    startTraining [⟨1, 7, .pending, 0, 0, 0, 0, none⟩] 7 3 2 =
      (.needData 3, [⟨1, 7, .pending, 0, 0, 0, 0, none⟩]) ∧
    trainStartError (startTraining [⟨1, 7, .pending, 0, 0, 0, 0, none⟩] 7 3 2).1 =
      some "Need at least 5 quality training examples" ∧
    some "Need at least 5 quality training examples" ≠
      some "Training job already in progress" :=
  ⟨rfl, rfl, rfl, by decide⟩

/-- C6 (amended) -- Single non-terminal job per user: a create-training
request from a user who already has a pending/running job and passes the
training-data check (at least 5 usable quality examples) is rejected with
the error "Training job already in progress" and inserts no row; a
request failing the data check is rejected first with "Need at least 5
quality training examples", also inserting no row; and across any
sequence of sequential create-training requests, every user has at most
one pending/running job (starting from a state where that holds). -/
theorem c6_single_active_job :
    (∀ (jobs : List TrainingJob) (u d n : ℕ) (j : TrainingJob),
      5 ≤ d → activeJobs jobs u = [j] →
      startTraining jobs u d n = (.alreadyInProgress j.id, jobs) ∧
      trainStartError (startTraining jobs u d n).1 =
        some "Training job already in progress") ∧
    (∀ (jobs : List TrainingJob) (u d n : ℕ), d < 5 →
      startTraining jobs u d n = (.needData d, jobs) ∧
      trainStartError (startTraining jobs u d n).1 =
        some "Need at least 5 quality training examples") ∧
    (∀ (reqs : List (ℕ × ℕ × ℕ)) (jobs : List TrainingJob),
      (∀ v, (activeJobs jobs v).length ≤ 1) →
      ∀ v, (activeJobs (reqs.foldl trainRequestStep jobs) v).length ≤ 1) := by
  refine ⟨?_, ?_, ?_⟩
  · intro jobs u d n j hd hone
    have heq : startTraining jobs u d n = (.alreadyInProgress j.id, jobs) := by
      unfold startTraining
      rw [if_neg (by omega)]
      unfold findActiveJob
      rw [hone]
    exact ⟨heq, by rw [heq]; rfl⟩
  · intro jobs u d n hd
    have heq : startTraining jobs u d n = (.needData d, jobs) := by
      unfold startTraining
      rw [if_pos hd]
    exact ⟨heq, by rw [heq]; rfl⟩
  · intro reqs
    induction reqs with
    | nil => intro jobs hv; exact hv
    | cons r rs ih =>
      intro jobs hv
      exact ih (trainRequestStep jobs r)
        (startTraining_preserves_single jobs r.1 r.2.1 r.2.2 hv)

theorem c6_single_active_job_witness :
    (startTraining [⟨1, 7, .pending, 0, 0, 0, 0, none⟩] 7 9 2 =
       (.alreadyInProgress 1, [⟨1, 7, .pending, 0, 0, 0, 0, none⟩]) ∧
     trainStartError (startTraining [⟨1, 7, .pending, 0, 0, 0, 0, none⟩] 7 9 2).1 =
       some "Training job already in progress") ∧
    (startTraining [⟨1, 7, .pending, 0, 0, 0, 0, none⟩] 7 3 2 =
       (.needData 3, [⟨1, 7, .pending, 0, 0, 0, 0, none⟩]) ∧
     trainStartError (startTraining [⟨1, 7, .pending, 0, 0, 0, 0, none⟩] 7 3 2).1 =
       some "Need at least 5 quality training examples") ∧
    (activeJobs ([(7, 9, 2), (8, 9, 3), (7, 9, 4)].foldl trainRequestStep
        [⟨1, 7, .pending, 0, 0, 0, 0, none⟩]) 7).length ≤ 1 :=
  ⟨c6_single_active_job.1 [⟨1, 7, .pending, 0, 0, 0, 0, none⟩] 7 9 2
      ⟨1, 7, .pending, 0, 0, 0, 0, none⟩ (by norm_num) rfl,
   c6_single_active_job.2.1 [⟨1, 7, .pending, 0, 0, 0, 0, none⟩] 7 3 2
      (by norm_num),
   c6_single_active_job.2.2 [(7, 9, 2), (8, 9, 3), (7, 9, 4)]
      [⟨1, 7, .pending, 0, 0, 0, 0, none⟩]
      (fun v => by
        cases hv7 : decide (7 = v) with
        | true =>
          have : v = 7 := by
            have := of_decide_eq_true hv7
            omega
          subst this
          exact le_of_eq rfl
        | false =>
          have hne : ¬ (7 = v) := of_decide_eq_false hv7
          simp [activeJobs, hne]) 7⟩

/-! ## processTraining: the persisted job-record trace (basic variant)

`processTraining` (api/ai/train.js, basic variant, lines 139-236) writes
the job row in this order: status→running; for each epoch `1..E` an
update of `current_epoch`, `progress_percentage = epoch/E*100`,
`loss_value` and `accuracy_value`; then either the completion update
(status→completed, `model_id`, `progress_percentage = 100`) or -- when an
exception interrupts the run -- the catch block's failure update
(status→failed).  The `Math.random()` draws are oracle parameters
`nL nA : ℕ → ℚ` (the code draws `nL k ∈ [0, 0.2)` and `nA k ∈ [0, 0.1)`,
but no claim depends on the range).  `failAt = some f` means the run
threw before persisting epoch `f`'s update; `f = E + 1` means it threw
after the last epoch, during model insertion. -/

/-- `Math.max(0.1, 2.5 - epoch*0.4 + noise)`. -/
def epochLoss1 (nL : ℕ → ℚ) (k : ℕ) : ℚ := max (1/10) (5/2 - k * (2/5) + nL k)

/-- `Math.min(0.95, 0.3 + epoch*0.15 + noise)`. -/
def epochAcc1 (nA : ℕ → ℚ) (k : ℕ) : ℚ := min (19/20) (3/10 + k * (3/20) + nA k)

/-- The job row as persisted by the epoch-`k` progress update. -/
def progressView (jobId u E : ℕ) (nL nA : ℕ → ℚ) (k : ℕ) : TrainingJob :=
  { id := jobId, userId := u, status := .running, currentEpoch := k,
    progressPct := (k : ℚ) / E * 100, lossValue := epochLoss1 nL k,
    accuracyValue := epochAcc1 nA k, modelId := none }

/-- The sequence of states of the job row, from its insertion to the
terminal update. -/
def jobTrace (jobId u E : ℕ) (nL nA : ℕ → ℚ) (failAt : Option ℕ) (mId : ℕ) :
    List TrainingJob :=
  let initRec : TrainingJob := ⟨jobId, u, .pending, 0, 0, 0, 0, none⟩
  let runRec : TrainingJob := { initRec with status := .running }
  match failAt with
  | none =>
      let lastRec := if E = 0 then runRec else progressView jobId u E nL nA E
      initRec :: ((runRec :: (List.range' 1 E).map (progressView jobId u E nL nA)) ++
        [({ lastRec with
            status := .completed
            progressPct := 100
            modelId := some mId } : TrainingJob)])
  | some f =>
      let lastRec := if f - 1 = 0 then runRec
        else progressView jobId u E nL nA (f - 1)
      initRec :: ((runRec :: (List.range' 1 (f - 1)).map (progressView jobId u E nL nA)) ++
        [{ lastRec with status := .failed }])

/-- The monotone fields of successive persisted job states. -/
def jobLe (a b : TrainingJob) : Prop :=
  a.currentEpoch ≤ b.currentEpoch ∧ a.progressPct ≤ b.progressPct

/-- The running-status record preceding the epoch updates. -/
def runView (jobId u : ℕ) : TrainingJob := ⟨jobId, u, .running, 0, 0, 0, 0, none⟩

theorem progressPct_mono (E : ℕ) (hE : 1 ≤ E) (j k : ℕ) (hjk : j ≤ k) :
    (j : ℚ) / E * 100 ≤ (k : ℚ) / E * 100 := by
  have hE0 : (0 : ℚ) < E := by exact_mod_cast hE
  have hjk2 : (j : ℚ) ≤ k := by exact_mod_cast hjk
  have h1 : (j : ℚ) / E ≤ (k : ℚ) / E := (div_le_div_iff_of_pos_right hE0).mpr hjk2
  nlinarith

/-- `Chain'` of the prefix `running :: epoch 1 .. epoch m`, together with
its last element. -/
theorem chain'_run_progress (jobId u E : ℕ) (nL nA : ℕ → ℚ) (hE : 1 ≤ E) (m : ℕ) :
    List.Chain' jobLe
      (runView jobId u :: (List.range' 1 m).map (progressView jobId u E nL nA)) ∧
    (runView jobId u :: (List.range' 1 m).map (progressView jobId u E nL nA)).getLast? =
      some (if m = 0 then runView jobId u else progressView jobId u E nL nA m) := by
  induction m with
  | zero => exact ⟨List.chain'_singleton _, rfl⟩
  | succ k ih =>
    have hconcat : List.range' 1 (k + 1) = List.range' 1 k ++ [1 + k] := by
      simpa using List.range'_1_concat 1 k
    have hlink : jobLe (if k = 0 then runView jobId u
        else progressView jobId u E nL nA k) (progressView jobId u E nL nA (1 + k)) := by
      constructor
      · split_ifs with hk
        · exact Nat.zero_le _
        · show k ≤ 1 + k
          omega
      · split_ifs with hk
        · show (0 : ℚ) ≤ ((1 + k : ℕ) : ℚ) / E * 100
          simpa using progressPct_mono E hE 0 (1 + k) (Nat.zero_le _)
        · exact progressPct_mono E hE k (1 + k) (by omega)
    have hsplit : runView jobId u ::
        ((List.range' 1 k).map (progressView jobId u E nL nA) ++
          [progressView jobId u E nL nA (1 + k)]) =
        (runView jobId u :: (List.range' 1 k).map (progressView jobId u E nL nA)) ++
          [progressView jobId u E nL nA (1 + k)] := rfl
    constructor
    · rw [hconcat, List.map_append, List.map_singleton, hsplit]
      refine List.chain'_append.mpr ⟨ih.1, List.chain'_singleton _, ?_⟩
      intro x hx y hy
      rw [ih.2] at hx
      simp only [Option.mem_def, Option.some.injEq] at hx
      simp only [List.head?_cons, Option.mem_def, Option.some.injEq] at hy
      rw [← hx, ← hy]
      exact hlink
    · rw [hconcat, List.map_append, List.map_singleton, hsplit, List.getLast?_concat]
      simp [Nat.add_comm 1 k]

/-- In a trace shaped `init :: ((run :: L) ++ [C])` whose first elements
are all non-terminal and whose last element is terminal, the terminal
status occurs exactly once, and last. -/
theorem statusFilter_trace (a b C : TrainingJob) (L : List TrainingJob)
    (h1 : nonTerminal a.status = true) (h2 : nonTerminal b.status = true)
    (hL : ∀ x ∈ L, nonTerminal x.status = true)
    (hC : nonTerminal C.status = false) :
    (((a :: ((b :: L) ++ [C])).map TrainingJob.status).filter
        (fun s => !nonTerminal s) = [C.status]) ∧
    ((a :: ((b :: L) ++ [C])).map TrainingJob.status).getLast? = some C.status := by
  have hLfil : (L.map TrainingJob.status).filter (fun s => !nonTerminal s) = [] := by
    rw [List.filter_eq_nil_iff]
    intro s hs
    obtain ⟨x, hx, rfl⟩ := List.mem_map.mp hs
    simp [hL x hx]
  constructor
  · rw [show a :: ((b :: L) ++ [C]) = (a :: b :: L) ++ [C] from rfl]
    rw [List.map_append, List.filter_append, List.map_cons, List.map_cons,
      List.filter_cons, List.filter_cons, hLfil]
    simp [h1, h2, hC]
  · rw [show a :: ((b :: L) ++ [C]) = (a :: b :: L) ++ [C] from rfl]
    rw [List.map_append, List.map_singleton, List.getLast?_concat]

/-- C7 -- Job progress monotonicity and terminal transitions: along the
sequence of persisted states of one training job -- from insertion
through the epoch updates to the terminal update, with or without an
interrupting exception -- `currentEpoch` and `progressPercentage` are
non-decreasing between successive states, and exactly one persisted
status is terminal (`completed` on a clean run, `failed` on an
exception), and it is the final one. -/
theorem c7_job_progress (jobId u E : ℕ) (nL nA : ℕ → ℚ) (failAt : Option ℕ)
    (mId : ℕ) (hE : 1 ≤ E) (hf : ∀ f, failAt = some f → 1 ≤ f ∧ f ≤ E + 1) :
    List.Chain' jobLe (jobTrace jobId u E nL nA failAt mId) ∧
    (((jobTrace jobId u E nL nA failAt mId).map TrainingJob.status).filter
        (fun s => !nonTerminal s) =
      [match failAt with
       | none => JobStatus.completed
       | some _ => JobStatus.failed]) ∧
    ((jobTrace jobId u E nL nA failAt mId).map TrainingJob.status).getLast? =
      some (match failAt with
            | none => JobStatus.completed
            | some _ => JobStatus.failed) := by
  cases failAt with
  | none =>
    have hE0 : ¬ (E = 0) := by omega
    simp only [jobTrace]
    rw [if_neg hE0]
    have hfil := statusFilter_trace ⟨jobId, u, .pending, 0, 0, 0, 0, none⟩
      (runView jobId u)
      ({ progressView jobId u E nL nA E with
          status := .completed
          progressPct := 100
          modelId := some mId })
      ((List.range' 1 E).map (progressView jobId u E nL nA))
      rfl rfl
      (by
        intro x hx
        obtain ⟨k, hk, rfl⟩ := List.mem_map.mp hx
        rfl)
      rfl
    refine ⟨?_, hfil.1, hfil.2⟩
    apply List.chain'_cons'.mpr
    constructor
    · intro y hy
      simp only [List.cons_append, List.head?_cons, Option.mem_def,
        Option.some.injEq] at hy
      rw [← hy]
      exact ⟨le_rfl, le_rfl⟩
    · refine List.chain'_append.mpr
        ⟨(chain'_run_progress jobId u E nL nA hE E).1,
         List.chain'_singleton _, ?_⟩
      intro x hx y hy
      have hx2 : (runView jobId u ::
          (List.range' 1 E).map (progressView jobId u E nL nA)).getLast? =
            some x := hx
      rw [(chain'_run_progress jobId u E nL nA hE E).2, if_neg hE0] at hx2
      simp only [Option.some.injEq] at hx2
      simp only [List.head?_cons, Option.mem_def, Option.some.injEq] at hy
      rw [← hx2, ← hy]
      constructor
      · show E ≤ E
        exact le_rfl
      · show (E : ℚ) / E * 100 ≤ 100
        rw [div_self (by exact_mod_cast hE0 : (E : ℚ) ≠ 0)]
        norm_num
  | some f =>
    simp only [jobTrace]
    have hfil := statusFilter_trace ⟨jobId, u, .pending, 0, 0, 0, 0, none⟩
      (runView jobId u)
      ({ (if f - 1 = 0 then runView jobId u
          else progressView jobId u E nL nA (f - 1)) with status := .failed })
      ((List.range' 1 (f - 1)).map (progressView jobId u E nL nA))
      rfl rfl
      (by
        intro x hx
        obtain ⟨k, hk, rfl⟩ := List.mem_map.mp hx
        rfl)
      rfl
    refine ⟨?_, ?_, ?_⟩
    · apply List.chain'_cons'.mpr
      constructor
      · intro y hy
        simp only [List.cons_append, List.head?_cons, Option.mem_def,
          Option.some.injEq] at hy
        rw [← hy]
        exact ⟨le_rfl, le_rfl⟩
      · refine List.chain'_append.mpr
          ⟨(chain'_run_progress jobId u E nL nA hE (f - 1)).1,
           List.chain'_singleton _, ?_⟩
        intro x hx y hy
        have hx2 : (runView jobId u ::
            (List.range' 1 (f - 1)).map (progressView jobId u E nL nA)).getLast? =
              some x := hx
        rw [(chain'_run_progress jobId u E nL nA hE (f - 1)).2] at hx2
        simp only [Option.some.injEq] at hx2
        simp only [List.head?_cons, Option.mem_def, Option.some.injEq] at hy
        rw [← hx2, ← hy]
        exact ⟨le_rfl, le_rfl⟩
    · exact hfil.1
    · exact hfil.2

theorem c7_job_progress_witness :
    List.Chain' jobLe (jobTrace 1 7 5 (fun _ => 0) (fun _ => 0) none 3) ∧
    (((jobTrace 1 7 5 (fun _ => 0) (fun _ => 0) none 3).map
        TrainingJob.status).filter (fun s => !nonTerminal s) =
      [JobStatus.completed]) ∧
    ((jobTrace 1 7 5 (fun _ => 0) (fun _ => 0) none 3).map
        TrainingJob.status).getLast? = some JobStatus.completed :=
  c7_job_progress 1 7 5 (fun _ => 0) (fun _ => 0) none 3 (by norm_num)
    (fun f h => nomatch h)

/-! ## Training completion: models, examples and the full store

`ModelRec` mirrors a `models` row (the columns the claims touch: identity,
name, status, accuracy, active flag and the `performance_metrics` JSON);
`ExampleRec` mirrors a `training_data` row (identity, owner, consumption
flag).  `TrainStore` is the slice of the datastore `processTraining`
touches.  Row updates filtered by `.eq('id', jobId)` become `updJob`. -/

structure PerfMetrics where
  finalLoss : ℚ
  finalAccuracy : ℚ
  trainingEpochs : ℕ
  samplesProcessed : ℕ
  deriving Repr, DecidableEq

structure ModelRec where
  id : ℕ
  userId : ℕ
  name : String
  status : String
  accuracy : ℚ
  isActive : Bool
  metrics : PerfMetrics
  deriving Repr, DecidableEq

structure ExampleRec where
  id : ℕ
  userId : ℕ
  usedInTraining : Bool
  deriving Repr, DecidableEq

structure TrainStore where
  jobs : List TrainingJob
  models : List ModelRec
  examples : List ExampleRec
  deriving Repr, DecidableEq

def updJob (js : List TrainingJob) (jobId : ℕ) (f : TrainingJob → TrainingJob) :
    List TrainingJob :=
  js.map fun j => if j.id = jobId then f j else j

/-- `if (accuracy > results.bestAccuracy) results.bestAccuracy = accuracy`,
folded over the epoch accuracies starting from 0. -/
def maxStep (b a : ℚ) : ℚ := if b < a then a else b

def bestAccuracy (accs : List ℚ) : ℚ := accs.foldl maxStep 0

/-- The basic `processTraining` of api/ai/train.js (lines 139-236), on the
success path: status→running, five epoch updates, a model insert with
`accuracy = 0.85 + Math.random() * 0.1` (oracle `rModel ∈ [0,1)`), the
completion update, then marking the consumed `training_data` rows used.
The v1 metrics JSON is the hard-coded `{final_loss: 0.15,
final_accuracy: 0.87, ...}`. -/
def processTrainingBasic (st : TrainStore) (jobId userId : ℕ)
    (dataIds : List ℕ) (modelName : String) (nL nA : ℕ → ℚ) (rModel : ℚ)
    (newModelId : ℕ) : TrainStore :=
  let js0 := updJob st.jobs jobId fun j => { j with status := .running }
  let js1 := (List.range' 1 5).foldl (fun js k => updJob js jobId fun j =>
      { j with
        currentEpoch := k
        progressPct := (k : ℚ) / 5 * 100
        lossValue := epochLoss1 nL k
        accuracyValue := epochAcc1 nA k }) js0
  let newModel : ModelRec :=
    { id := newModelId, userId := userId, name := modelName,
      status := "trained", accuracy := 85/100 + rModel * (1/10),
      isActive := false,
      metrics := { finalLoss := 15/100, finalAccuracy := 87/100,
                   trainingEpochs := 5, samplesProcessed := dataIds.length } }
  let js2 := updJob js1 jobId fun j =>
      { j with
        status := .completed
        modelId := some newModelId
        progressPct := 100 }
  { jobs := js2
    models := st.models ++ [newModel]
    examples := st.examples.map fun ex =>
      if ex.id ∈ dataIds then { ex with usedInTraining := true } else ex }

/-- The enhanced `processTraining` of api/ai/train.js (lines 380-496), on
the success path.  The per-epoch accuracy
`Math.min(0.95, baseAccuracy(specialization) + Math.log(epoch+1)*0.1 +
noise)` contains a transcendental term, so it enters as the oracle
`accOf`; the code guarantees it is positive (base >= 0.70, the log term
positive, |noise| <= 0.025).  The loss enters as `lossOf` likewise.
Everything downstream of the metrics -- the best-accuracy fold, the model
insert, the completion update, and the marking of consumed examples -- is
embedded concretely. -/
def processTrainingEnhanced (st : TrainStore) (jobId userId : ℕ)
    (dataIds : List ℕ) (modelName : String) (E : ℕ) (accOf lossOf : ℕ → ℚ)
    (newModelId : ℕ) : TrainStore :=
  let js0 := updJob st.jobs jobId fun j => { j with status := .running }
  let js1 := (List.range' 1 E).foldl (fun js k => updJob js jobId fun j =>
      { j with
        currentEpoch := k
        progressPct := (k : ℚ) / E * 100
        lossValue := lossOf k
        accuracyValue := accOf k }) js0
  let best := bestAccuracy ((List.range' 1 E).map accOf)
  let newModel : ModelRec :=
    { id := newModelId, userId := userId, name := modelName,
      status := "trained", accuracy := best, isActive := false,
      metrics := { finalLoss := lossOf E, finalAccuracy := best,
                   trainingEpochs := E, samplesProcessed := dataIds.length } }
  let js2 := updJob js1 jobId fun j =>
      { j with
        status := .completed
        modelId := some newModelId
        progressPct := 100 }
  { jobs := js2
    models := st.models ++ [newModel]
    examples := st.examples.map fun ex =>
      if ex.id ∈ dataIds then { ex with usedInTraining := true } else ex }

theorem foldlMax_mem (b : ℚ) (l : List ℚ) : l.foldl maxStep b ∈ b :: l := by
  induction l generalizing b with
  | nil => exact List.mem_singleton.mpr rfl
  | cons a l ih =>
    simp only [List.foldl_cons]
    rcases List.mem_cons.mp (ih (maxStep b a)) with h1 | h1
    · rw [h1]
      unfold maxStep
      split_ifs
      · exact List.mem_cons_of_mem _ (List.mem_cons_self _ _)
      · exact List.mem_cons_self _ _
    · exact List.mem_cons_of_mem _ (List.mem_cons_of_mem _ h1)

theorem foldlMax_ge (b : ℚ) (l : List ℚ) :
    ∀ a ∈ b :: l, a ≤ l.foldl maxStep b := by
  induction l generalizing b with
  | nil =>
    intro a ha
    rw [List.mem_singleton.mp ha]
    exact le_rfl
  | cons c l ih =>
    have hstep : b ≤ maxStep b c ∧ c ≤ maxStep b c := by
      unfold maxStep
      split_ifs with h
      · exact ⟨le_of_lt h, le_refl _⟩
      · exact ⟨le_refl _, le_of_not_lt h⟩
    intro a ha
    simp only [List.foldl_cons]
    rcases List.mem_cons.mp ha with h1 | h1
    · rw [h1]
      exact le_trans hstep.1 (ih (maxStep b c) _ (List.mem_cons_self _ _))
    · rcases List.mem_cons.mp h1 with h2 | h2
      · rw [h2]
        exact le_trans hstep.2 (ih (maxStep b c) _ (List.mem_cons_self _ _))
      · exact ih (maxStep b c) a (List.mem_cons_of_mem _ h2)

/-- On a non-empty list of positive accuracies, the best-accuracy fold
computes exactly the maximum (the 0 seed never survives). -/
theorem bestAccuracy_spec (l : List ℚ) (hne : l ≠ []) (hpos : ∀ a ∈ l, 0 < a) :
    bestAccuracy l ∈ l ∧ ∀ a ∈ l, a ≤ bestAccuracy l := by
  have hge : ∀ a ∈ (0 : ℚ) :: l, a ≤ l.foldl maxStep 0 := foldlMax_ge 0 l
  constructor
  · rcases List.mem_cons.mp (foldlMax_mem 0 l) with h0 | h1
    · obtain ⟨a, ha⟩ := List.exists_mem_of_ne_nil l hne
      have hle : a ≤ l.foldl maxStep 0 := hge a (List.mem_cons_of_mem _ ha)
      rw [h0] at hle
      exact absurd hle (not_le.mpr (hpos a ha))
    · exact h1
  · intro a ha
    exact hge a (List.mem_cons_of_mem _ ha)

/-- A row of `updJob js jobId f` carrying the target id is `f` of a row
of `js` that carried the target id (provided `f` preserves ids). -/
theorem mem_updJob_eq (js : List TrainingJob) (jobId : ℕ)
    (f : TrainingJob → TrainingJob) (_hf : ∀ j, (f j).id = j.id) :
    ∀ j ∈ updJob js jobId f, j.id = jobId → ∃ j0 ∈ js, j0.id = jobId ∧ j = f j0 := by
  intro j hj hid
  obtain ⟨j0, hj0, rfl⟩ := List.mem_map.mp hj
  by_cases h0 : j0.id = jobId
  · exact ⟨j0, hj0, h0, if_pos h0⟩
  · rw [if_neg h0] at hid
    exact absurd hid h0

/-- C8 counterexample -- the claim (quantified over the repository's
`processTraining` variants) says the inserted model's accuracy equals the
maximum per-epoch accuracy observed; but the basic variant
(api/ai/train.js lines 177-197) inserts `accuracy = 0.85 +
Math.random()*0.1`, unrelated to the epoch metrics: with every random
draw 0, the model gets accuracy 0.85 while epoch 5 observed accuracy
0.95. -/
theorem c8_counterexample :
    (processTrainingBasic ⟨[⟨1, 7, .pending, 0, 0, 0, 0, none⟩], [], []⟩ 1 7 []
        "m" (fun _ => 0) (fun _ => 0) 0 5).models.map ModelRec.accuracy =
      [85/100 + 0 * (1/10)] ∧
    (85 : ℚ)/100 + 0 * (1/10) = 17/20 ∧
    5 ∈ List.range' 1 5 ∧
    epochAcc1 (fun _ => 0) 5 = 19/20 ∧
    (17 : ℚ)/20 < 19/20 := by
  refine ⟨rfl, by norm_num, by decide, ?_, by norm_num⟩
  simp only [epochAcc1]
  rw [min_eq_left (by norm_num)]

/-- C8 (amended) -- in the enhanced training variant, every run that
finishes all epochs without an exception inserts a Model row whose
accuracy is exactly the maximum per-epoch accuracy observed, marks every
consumed TrainingExample `usedInTraining = true`, and sets the job to
`completed` with the new model's id and progress 100.  (The basic variant
draws the model accuracy at random instead -- see the counterexample --
and the part_007 variant does not mark consumed examples.) -/
theorem c8_training_completion (st : TrainStore) (jobId userId : ℕ)
    (dataIds : List ℕ) (modelName : String) (E : ℕ) (accOf lossOf : ℕ → ℚ)
    (newModelId : ℕ) (hE : 1 ≤ E) (hpos : ∀ k, 0 < accOf k) :
    ((processTrainingEnhanced st jobId userId dataIds modelName E accOf lossOf
        newModelId).models =
      st.models ++
        [{ id := newModelId, userId := userId, name := modelName,
           status := "trained",
           accuracy := bestAccuracy ((List.range' 1 E).map accOf),
           isActive := false,
           metrics := { finalLoss := lossOf E,
                        finalAccuracy := bestAccuracy ((List.range' 1 E).map accOf),
                        trainingEpochs := E,
                        samplesProcessed := dataIds.length } }]) ∧
    (bestAccuracy ((List.range' 1 E).map accOf) ∈ (List.range' 1 E).map accOf ∧
     ∀ a ∈ (List.range' 1 E).map accOf,
       a ≤ bestAccuracy ((List.range' 1 E).map accOf)) ∧
    ((processTrainingEnhanced st jobId userId dataIds modelName E accOf lossOf
        newModelId).examples =
      st.examples.map fun ex =>
        if ex.id ∈ dataIds then { ex with usedInTraining := true } else ex) ∧
    (∀ ex ∈ (processTrainingEnhanced st jobId userId dataIds modelName E accOf
        lossOf newModelId).examples, ex.id ∈ dataIds → ex.usedInTraining = true) ∧
    (∀ j ∈ (processTrainingEnhanced st jobId userId dataIds modelName E accOf
        lossOf newModelId).jobs, j.id = jobId →
      j.status = .completed ∧ j.modelId = some newModelId ∧ j.progressPct = 100) := by
  refine ⟨rfl, ?_, rfl, ?_, ?_⟩
  · apply bestAccuracy_spec
    · have : List.range' 1 E ≠ [] := by
        intro h
        have := congrArg List.length h
        simp at this
        omega
      intro h
      exact this (List.map_eq_nil_iff.mp h)
    · intro a ha
      obtain ⟨k, _, rfl⟩ := List.mem_map.mp ha
      exact hpos k
  · intro ex hex hid
    obtain ⟨e0, he0, rfl⟩ := List.mem_map.mp hex
    by_cases h0 : e0.id ∈ dataIds
    · rw [if_pos h0]
    · rw [if_neg h0] at hid
      exact absurd hid h0
  · intro j hj hid
    have hj2 : j ∈ updJob
        ((List.range' 1 E).foldl (fun js k => updJob js jobId fun j =>
          { j with
            currentEpoch := k
            progressPct := (k : ℚ) / E * 100
            lossValue := lossOf k
            accuracyValue := accOf k })
          (updJob st.jobs jobId fun j => { j with status := .running }))
        jobId (fun j =>
          { j with
            status := .completed
            modelId := some newModelId
            progressPct := 100 }) := hj
    obtain ⟨j0, _, _, rfl⟩ := mem_updJob_eq _ jobId
      (fun j => { j with
        status := .completed
        modelId := some newModelId
        progressPct := 100 }) (fun j => rfl) j hj2 hid
    exact ⟨rfl, rfl, rfl⟩

theorem c8_training_completion_witness :
    ((processTrainingEnhanced ⟨[⟨1, 7, .pending, 0, 0, 0, 0, none⟩], [],
        [⟨42, 7, false⟩]⟩ 1 7 [42] "m" 1 (fun _ => 1) (fun _ => 1) 9).models =
      ([] : List ModelRec) ++
        [{ id := 9, userId := 7, name := "m",
           status := "trained",
           accuracy := bestAccuracy ((List.range' 1 1).map (fun _ => (1 : ℚ))),
           isActive := false,
           metrics := { finalLoss := 1,
                        finalAccuracy :=
                          bestAccuracy ((List.range' 1 1).map (fun _ => (1 : ℚ))),
                        trainingEpochs := 1,
                        samplesProcessed := 1 } }]) ∧
    bestAccuracy ((List.range' 1 1).map (fun _ => (1 : ℚ))) ∈
      (List.range' 1 1).map (fun _ => (1 : ℚ)) ∧
    ((processTrainingEnhanced ⟨[⟨1, 7, .pending, 0, 0, 0, 0, none⟩], [],
        [⟨42, 7, false⟩]⟩ 1 7 [42] "m" 1 (fun _ => 1) (fun _ => 1) 9).examples =
      [⟨42, 7, false⟩].map fun ex =>
        if ex.id ∈ [42] then { ex with usedInTraining := true } else ex) ∧
    (⟨42, 7, true⟩ : ExampleRec).usedInTraining = true ∧
    ((⟨1, 7, .completed, 1, 100, 1, 1, some 9⟩ : TrainingJob).status =
        JobStatus.completed ∧
      (⟨1, 7, .completed, 1, 100, 1, 1, some 9⟩ : TrainingJob).modelId = some 9 ∧
      (⟨1, 7, .completed, 1, 100, 1, 1, some 9⟩ : TrainingJob).progressPct = 100) :=
  have h := c8_training_completion ⟨[⟨1, 7, .pending, 0, 0, 0, 0, none⟩], [],
      [⟨42, 7, false⟩]⟩ 1 7 [42] "m" 1 (fun _ => 1) (fun _ => 1) 9
      (le_refl 1) (fun k => by norm_num)
  ⟨h.1, h.2.1.1, h.2.2.1,
   h.2.2.2.1 ⟨42, 7, true⟩ (List.mem_singleton.mpr rfl) (List.mem_singleton.mpr rfl),
   h.2.2.2.2 ⟨1, 7, .completed, 1, 100, 1, 1, some 9⟩
     (List.mem_singleton.mpr rfl) rfl⟩

/-! ## Model activation and archival (the models handler in the
auto-learn file)

`activateModel`: verify the model exists and belongs to the caller (404
otherwise), require status `trained` (400 otherwise), set
`is_active = false` on all of the caller's models, then set
`is_active = true, status = 'deployed'` on the requested row (the second
update filters by id only; the ownership check has already pinned the
row).  `deleteModel`: look up the row's `is_active` (a thrown error --
500 -- when absent), reject with 400 when active, otherwise set
`status = 'archived'` -- the row is never removed. -/

inductive ActivateResult
  | notFound
  | notTrained
  | activated
  deriving Repr, DecidableEq

/-- HTTP status of each activation outcome (404 / 400 / 200). -/
def activateHttpStatus : ActivateResult → ℕ
  | .notFound => 404
  | .notTrained => 400
  | .activated => 200

def activateModel (models : List ModelRec) (userId modelId : ℕ) :
    ActivateResult × List ModelRec :=
  match models.find? (fun m => m.id = modelId && m.userId = userId) with
  | none => (.notFound, models)
  | some m =>
    if m.status ≠ "trained" then (.notTrained, models)
    else
      let ms1 := models.map fun q =>
        if q.userId = userId then { q with isActive := false } else q
      let ms2 := ms1.map fun q =>
        if q.id = modelId then { q with isActive := true, status := "deployed" }
        else q
      (.activated, ms2)

def activateStep (models : List ModelRec) (r : ℕ × ℕ) : List ModelRec :=
  (activateModel models r.1 r.2).2

/-- Number of the user's models with `is_active = true`. -/
def activeCount (models : List ModelRec) (v : ℕ) : ℕ :=
  models.countP fun m => m.userId = v && m.isActive

/-- With pairwise-distinct ids, at most one row carries any given id. -/
theorem countP_id_le_one (models : List ModelRec) (mid : ℕ)
    (h : models.Pairwise (fun a b => a.id ≠ b.id)) :
    models.countP (fun q => q.id = mid) ≤ 1 := by
  induction models with
  | nil => simp
  | cons a l ih =>
    rw [List.countP_cons]
    have hp := List.pairwise_cons.mp h
    by_cases ha : a.id = mid
    · have h0 : l.countP (fun q => q.id = mid) = 0 := by
        rw [List.countP_eq_zero]
        intro q hq
        simp only [decide_eq_true_eq]
        intro hqid
        exact hp.1 q hq (by rw [ha, hqid])
      simp [h0, ha]
    · simp [ha]
      exact ih hp.2

theorem activateModel_success (models : List ModelRec) (u mid : ℕ)
    (m : ModelRec)
    (hfind : models.find? (fun q => q.id = mid && q.userId = u) = some m)
    (hst : m.status = "trained") :
    activateModel models u mid =
      (.activated, models.map fun q =>
        if q.id = mid then { q with isActive := true, status := "deployed" }
        else if q.userId = u then { q with isActive := false } else q) := by
  unfold activateModel
  rw [hfind]
  dsimp only
  rw [if_neg (by simp [hst])]
  refine congrArg (Prod.mk ActivateResult.activated) ?_
  rw [List.map_map]
  apply List.map_congr_left
  intro q _
  by_cases h1 : q.userId = u <;> by_cases h2 : q.id = mid <;>
    simp [Function.comp, h1, h2]

/-- One `activateModel` call keeps every user's number of active models
at most 1 (ids pairwise distinct, as for rows of one table). -/
theorem activateModel_preserves_active (models : List ModelRec) (u mid : ℕ)
    (hnd : models.Pairwise (fun a b => a.id ≠ b.id))
    (hinv : ∀ v, activeCount models v ≤ 1) :
    ∀ v, activeCount (activateModel models u mid).2 v ≤ 1 := by
  intro v
  cases hfind : models.find? (fun q => q.id = mid && q.userId = u) with
  | none =>
      unfold activateModel
      rw [hfind]
      exact hinv v
  | some m =>
      have hm := List.find?_some hfind
      simp only [Bool.and_eq_true, decide_eq_true_eq] at hm
      have hmem : m ∈ models := List.mem_of_find?_eq_some hfind
      by_cases hst : m.status ≠ "trained"
      · unfold activateModel
        rw [hfind]
        dsimp only
        rw [if_pos hst]
        exact hinv v
      · have hst2 : m.status = "trained" := not_ne_iff.mp hst
        rw [activateModel_success models u mid m hfind hst2]
        unfold activeCount
        rw [List.countP_map]
        by_cases hv : v = u
        · subst hv
          refine le_trans (List.countP_mono_left ?_) (countP_id_le_one models mid hnd)
          intro q hq hpred
          by_cases h2 : q.id = mid
          · simpa using h2
          · exfalso
            by_cases h1 : q.userId = v
            · simp [Function.comp, h2, h1] at hpred
            · simp [Function.comp, h2, h1] at hpred
        · refine le_trans (List.countP_mono_left ?_) (hinv v)
          intro q hq hpred
          by_cases h2 : q.id = mid
          · exfalso
            have hqm : q = m := by
              by_contra hne
              exact (List.Pairwise.forall (fun _ _ h => Ne.symm h) hnd hq hmem hne)
                (by rw [h2, hm.1])
            have huv : ¬ (u = v) := fun hh => hv hh.symm
            rw [hqm] at h2
            simp [Function.comp, hm.1, hqm, hm.2, huv] at hpred
          · by_cases h1 : q.userId = u
            · simp [Function.comp, h2, h1] at hpred
            · simpa [Function.comp, h2, h1] using hpred

/-- `activateModel` never changes ids, so pairwise-distinct ids are
preserved. -/
theorem activateModel_preserves_pairwise (ms : List ModelRec) (a b : ℕ)
    (hnd : ms.Pairwise (fun x y => x.id ≠ y.id)) :
    (activateModel ms a b).2.Pairwise (fun x y => x.id ≠ y.id) := by
  unfold activateModel
  cases hf : ms.find? (fun q => q.id = b && q.userId = a) with
  | none => exact hnd
  | some m0 =>
    dsimp only
    split_ifs
    · exact hnd
    · rw [List.map_map, List.pairwise_map]
      apply hnd.imp
      intro x y hxy
      by_cases hx2 : x.id = b
      · by_cases hy2 : y.id = b
        · exact absurd (hx2.trans hy2.symm) hxy
        · by_cases hx1 : x.userId = a <;> by_cases hy1 : y.userId = a <;>
            simpa [Function.comp, hx1, hx2, hy1, hy2] using hxy
      · by_cases hy2 : y.id = b
        · by_cases hx1 : x.userId = a <;> by_cases hy1 : y.userId = a <;>
            simp [Function.comp, hx1, hx2, hy1, hy2]
        · by_cases hx1 : x.userId = a <;> by_cases hy1 : y.userId = a <;>
            simpa [Function.comp, hx1, hx2, hy1, hy2] using hxy

/-- C9 -- At-most-one active model: a successful activation (model found,
owned by the caller, status `trained`) first deactivates all of the
user's models and then activates exactly the requested row (also marking
it `deployed`); and starting from a state where every user has at most
one active model (in particular zero, before any activation), any
sequence of activate-model calls preserves that bound. -/
theorem c9_at_most_one_active :
    (∀ (models : List ModelRec) (u mid : ℕ) (m : ModelRec),
      models.find? (fun q => q.id = mid && q.userId = u) = some m →
      m.status = "trained" →
      activateModel models u mid =
        (.activated, models.map fun q =>
          if q.id = mid then { q with isActive := true, status := "deployed" }
          else if q.userId = u then { q with isActive := false } else q)) ∧
    (∀ (calls : List (ℕ × ℕ)) (models : List ModelRec),
      models.Pairwise (fun a b => a.id ≠ b.id) →
      (∀ v, activeCount models v ≤ 1) →
      ∀ v, activeCount (calls.foldl activateStep models) v ≤ 1) := by
  refine ⟨activateModel_success, ?_⟩
  intro calls
  induction calls with
  | nil => intro models _ hinv; exact hinv
  | cons c cs ih =>
    intro models hnd hinv
    exact ih (activateStep models c)
      (activateModel_preserves_pairwise models c.1 c.2 hnd)
      (activateModel_preserves_active models c.1 c.2 hnd hinv)

theorem c9_at_most_one_active_witness :
    activateModel
        [⟨1, 7, "m1", "trained", 1, false, ⟨1, 1, 1, 1⟩⟩,
         ⟨2, 7, "m2", "deployed", 1, true, ⟨1, 1, 1, 1⟩⟩] 7 1 =
      (.activated,
        [⟨1, 7, "m1", "trained", 1, false, ⟨1, 1, 1, 1⟩⟩,
         ⟨2, 7, "m2", "deployed", 1, true, ⟨1, 1, 1, 1⟩⟩].map fun q =>
          if q.id = 1 then { q with isActive := true, status := "deployed" }
          else if q.userId = 7 then { q with isActive := false } else q) ∧
    activeCount ([(7, 1)].foldl activateStep
        [⟨1, 7, "m1", "trained", 1, false, ⟨1, 1, 1, 1⟩⟩,
         ⟨2, 7, "m2", "deployed", 1, true, ⟨1, 1, 1, 1⟩⟩]) 7 ≤ 1 :=
  ⟨c9_at_most_one_active.1 _ 7 1 ⟨1, 7, "m1", "trained", 1, false, ⟨1, 1, 1, 1⟩⟩
      rfl rfl,
   c9_at_most_one_active.2 [(7, 1)] _
      (by
        apply List.pairwise_cons.mpr
        refine ⟨?_, List.pairwise_singleton _ _⟩
        intro b hb
        rw [List.mem_singleton.mp hb]
        decide)
      (fun v => by
        simp only [activeCount, List.countP_cons, List.countP_nil]
        split_ifs <;> simp_all)
      7⟩

inductive DeleteResult
  | storeError
  | activeRejected
  | archived
  deriving Repr, DecidableEq

/-- HTTP status of each deletion outcome: a failed lookup throws (caught
as 500); deleting an active model is rejected with 400; archival responds
200. -/
def deleteHttpStatus : DeleteResult → ℕ
  | .storeError => 500
  | .activeRejected => 400
  | .archived => 200

/-- `deleteModel` from the models handler: never removes the row --
it sets `status = 'archived'` on the caller's row instead. -/
def deleteModel (models : List ModelRec) (userId modelId : ℕ) :
    DeleteResult × List ModelRec :=
  match models.find? (fun m => m.id = modelId && m.userId = userId) with
  | none => (.storeError, models)
  | some m =>
    if m.isActive then (.activeRejected, models)
    else
      (.archived, models.map fun q =>
        if q.id = modelId && q.userId = userId
        then { q with status := "archived" } else q)

/-- C10 -- Model deletion never removes data: on a DELETE for a model
owned by the caller, an active model is rejected with HTTP 400 and the
store is unchanged; otherwise no row is removed -- the target row's
status becomes `archived` while its name, accuracy and metrics (and every
other row) are unchanged. -/
theorem c10_delete_archives (models : List ModelRec) (u mid : ℕ)
    (m : ModelRec)
    (hfind : models.find? (fun q => q.id = mid && q.userId = u) = some m) :
    (m.isActive = true →
      deleteModel models u mid = (.activeRejected, models) ∧
      deleteHttpStatus (deleteModel models u mid).1 = 400) ∧
    (m.isActive = false →
      (deleteModel models u mid).1 = .archived ∧
      (deleteModel models u mid).2 = (models.map fun q =>
        if q.id = mid && q.userId = u
        then { q with status := "archived" } else q) ∧
      (deleteModel models u mid).2.length = models.length ∧
      (deleteModel models u mid).2.map ModelRec.name = models.map ModelRec.name ∧
      (deleteModel models u mid).2.map ModelRec.accuracy =
        models.map ModelRec.accuracy ∧
      (deleteModel models u mid).2.map ModelRec.metrics =
        models.map ModelRec.metrics ∧
      ∀ q ∈ (deleteModel models u mid).2, q.id = mid → q.userId = u →
        q.status = "archived") := by
  constructor
  · intro hact
    have heq : deleteModel models u mid = (.activeRejected, models) := by
      unfold deleteModel
      rw [hfind]
      dsimp only
      rw [if_pos hact]
    exact ⟨heq, by rw [heq]; rfl⟩
  · intro hact
    have heq : deleteModel models u mid = (.archived, models.map fun q =>
        if q.id = mid && q.userId = u
        then { q with status := "archived" } else q) := by
      unfold deleteModel
      rw [hfind]
      dsimp only
      rw [if_neg (by rw [hact]; exact Bool.false_ne_true)]
    rw [heq]
    refine ⟨rfl, rfl, by rw [List.length_map], ?_, ?_, ?_, ?_⟩
    · rw [List.map_map]
      apply List.map_congr_left
      intro q _
      by_cases h : (q.id = mid && q.userId = u) = true <;>
        simp [Function.comp, h]
    · rw [List.map_map]
      apply List.map_congr_left
      intro q _
      by_cases h : (q.id = mid && q.userId = u) = true <;>
        simp [Function.comp, h]
    · rw [List.map_map]
      apply List.map_congr_left
      intro q _
      by_cases h : (q.id = mid && q.userId = u) = true <;>
        simp [Function.comp, h]
    · intro q hq hqid hqu
      obtain ⟨q0, _, rfl⟩ := List.mem_map.mp hq
      by_cases h : (q0.id = mid && q0.userId = u) = true
      · rw [if_pos h]
      · rw [if_neg h] at hqid hqu ⊢
        exact absurd (by simp [hqid, hqu]) h

theorem c10_delete_archives_witness :
    (deleteModel [⟨2, 7, "m2", "deployed", 1, true, ⟨1, 1, 1, 1⟩⟩] 7 2 =
        (.activeRejected, [⟨2, 7, "m2", "deployed", 1, true, ⟨1, 1, 1, 1⟩⟩]) ∧
      deleteHttpStatus
        (deleteModel [⟨2, 7, "m2", "deployed", 1, true, ⟨1, 1, 1, 1⟩⟩] 7 2).1 =
          400) ∧
    ((deleteModel [⟨1, 7, "m1", "trained", 1, false, ⟨1, 1, 1, 1⟩⟩] 7 1).1 =
        DeleteResult.archived ∧
      (deleteModel [⟨1, 7, "m1", "trained", 1, false, ⟨1, 1, 1, 1⟩⟩] 7 1).2.map
          ModelRec.name =
        [⟨1, 7, "m1", "trained", 1, false, ⟨1, 1, 1, 1⟩⟩].map ModelRec.name ∧
      (⟨1, 7, "m1", "archived", 1, false, ⟨1, 1, 1, 1⟩⟩ : ModelRec).status =
        "archived") :=
  have h1 := c10_delete_archives [⟨2, 7, "m2", "deployed", 1, true, ⟨1, 1, 1, 1⟩⟩]
      7 2 ⟨2, 7, "m2", "deployed", 1, true, ⟨1, 1, 1, 1⟩⟩ rfl
  have h2 := c10_delete_archives [⟨1, 7, "m1", "trained", 1, false, ⟨1, 1, 1, 1⟩⟩]
      7 1 ⟨1, 7, "m1", "trained", 1, false, ⟨1, 1, 1, 1⟩⟩ rfl
  ⟨h1.1 rfl,
   (h2.2 rfl).1,
   (h2.2 rfl).2.2.2.1,
   (h2.2 rfl).2.2.2.2.2.2 ⟨1, 7, "m1", "archived", 1, false, ⟨1, 1, 1, 1⟩⟩
     (List.mem_singleton.mpr rfl) rfl rfl⟩

end LearningChat
